import Mathlib

/-!
Verification of the tinysid preprocessor (src/tinysid.h).

The embedding models the file content as a `List Nat` of byte values
(0–255, `char` read as an unsigned byte).  `tsPreprocess` loads the file,
appends a terminating NUL (`data[size] = 0`), scans it with
`tsNext_internal`, and rewrites every validated `SID( "lit" )` invocation.

The output buffer is modelled as a `List (Option Nat)`: `some b` is a byte
the program determinately wrote, `none` is a position inside the region the
write cursor skipped over without writing (this happens when `sprintf`'s
`%.*s` stops at an embedded NUL byte while the cursor still advances by the
full `19 + bytes`); those positions hold whatever `malloc` returned.
-/

namespace TinySid

/-- `djb2` from src/tinysid.h lines 43–56: `h = ((h << 5) + h) + c` over the
byte range, in 32-bit unsigned arithmetic. -/
def djb2 (l : List Nat) : Nat :=
  l.foldl (fun h c => ((h <<< 5) + h + c) % 4294967296) 5381

/-- The spec's wording of the hash (§4.1): left fold of `acc * 33 + c`
starting from 5381 with 32-bit wraparound. -/
def djb2Spec (l : List Nat) : Nat :=
  l.foldl (fun h c => (h * 33 + c) % 4294967296) 5381

/-- The run-time `SID` macro (line 31): `djb2( str, str + strlen( str ) )`,
i.e. the hash of the bytes of `str` up to but excluding the first NUL. -/
def SID (str : List Nat) : Nat :=
  djb2 (str.takeWhile (fun c => c != 0))

/-- C `isspace` on a byte: space, \t, \n, \v, \f, \r. -/
def isspace_b (c : Nat) : Bool :=
  c == 32 || c == 9 || c == 10 || c == 11 || c == 12 || c == 13

/-- C `isalnum` on a byte: 0-9, A-Z, a-z. -/
def isalnum_b (c : Nat) : Bool :=
  (48 ≤ c && c ≤ 57) || (65 ≤ c && c ≤ 90) || (97 ≤ c && c ≤ 122)

/-- `tsSkipWhite_internal` (lines 58–68): copy consecutive whitespace bytes
from the read cursor to the write cursor. -/
def tsSkipWhite_internal : List Nat → List (Option Nat) → List Nat × List (Option Nat)
  | [], out => ([], out)
  | c :: rest, out =>
    if isspace_b c then tsSkipWhite_internal rest (out ++ [some c])
    else (c :: rest, out)

theorem tsSkipWhite_eq (data : List Nat) (out : List (Option Nat)) :
    tsSkipWhite_internal data out =
      (data.dropWhile isspace_b, out ++ (data.takeWhile isspace_b).map some) := by
  induction data generalizing out with
  | nil => simp [tsSkipWhite_internal]
  | cons c rest ih =>
    by_cases h : isspace_b c
    · simp [tsSkipWhite_internal, h, ih, List.dropWhile_cons, List.takeWhile_cons]
    · simp [tsSkipWhite_internal, h, List.dropWhile_cons, List.takeWhile_cons]

/-- Outcome of the inner `"SID("` matching loop in `tsNext_internal`
(lines 98–123): the pattern was fully matched, a mismatch occurred
(`matched = 0`, the read cursor is restored by `data -= index`), or a NUL
was hit mid-pattern (`goto return_result` with the cursor left advanced —
`hitEnd` carries the advanced cursor). -/
inductive MatchRes where
  | matched : MatchRes
  | nomatch : MatchRes
  | hitEnd : List Nat → MatchRes
deriving DecidableEq

/-- The matching loop of lines 98–123, recursing over the remaining pattern
bytes of `"SID("`. -/
def matchSID : List Nat → List Nat → MatchRes
  | [], _ => .matched
  | _ :: _, [] => .hitEnd []
  | m :: ms, c :: rest =>
    if c = 0 then .hitEnd (c :: rest)
    else if c = m then matchSID ms rest
    else .nomatch

theorem matchSID_hitEnd_length {pat l r : List Nat}
    (h : matchSID pat l = .hitEnd r) : r.length ≤ l.length := by
  induction pat generalizing l r with
  | nil => simp [matchSID] at h
  | cons m ms ih =>
    match l with
    | [] =>
      simp only [matchSID, MatchRes.hitEnd.injEq] at h
      simp [← h]
    | c :: rest =>
      simp only [matchSID] at h
      by_cases h0 : c = 0
      · rw [if_pos h0] at h
        simp only [MatchRes.hitEnd.injEq] at h
        simp [← h]
      · rw [if_neg h0] at h
        by_cases hm : c = m
        · rw [if_pos hm] at h
          have := ih h
          simp only [List.length_cons]
          omega
        · rw [if_neg hm] at h
          simp at h

theorem matchSID_matched_take {pat l : List Nat}
    (h : matchSID pat l = .matched) : l.take pat.length = pat := by
  induction pat generalizing l with
  | nil => simp
  | cons m ms ih =>
    match l with
    | [] => simp [matchSID] at h
    | c :: rest =>
      simp only [matchSID] at h
      by_cases h0 : c = 0
      · rw [if_pos h0] at h
        simp at h
      · rw [if_neg h0] at h
        by_cases hm : c = m
        · rw [if_pos hm] at h
          simp [List.take_succ_cons, ih h, hm]
        · rw [if_neg hm] at h
          simp at h

theorem length_dropWhile_le' (p : Nat → Bool) (l : List Nat) :
    (l.dropWhile p).length ≤ l.length := by
  induction l with
  | nil => simp
  | cons c rest ih =>
    by_cases h : p c
    · simp [List.dropWhile_cons, h]
      omega
    · simp [List.dropWhile_cons, h]


/-- `tsNext_internal` (lines 70–140): copy bytes to the output until either
the NUL terminator is reached (result `false`) or an alphanumeric run
beginning with the exact bytes `S`,`I`,`D`,`(` is found (result `true`,
read cursor left at the `S`).  Whitespace and single non-alphanumeric
bytes are copied; an alphanumeric run whose head fails to match the
pattern is copied whole (`while ( isalnum( *data ) ) *out++ = *data++`),
so the pattern is only ever tried at the start of an alphanumeric run,
exactly as in the C loop; a partial pattern match that runs into the NUL
(`goto return_result` at line 107) returns `false` with the read cursor
left advanced past the partially matched bytes, which are therefore never
copied to the output.  Whitespace is consumed one byte per step here
where the C code calls `tsSkipWhite_internal` to consume a maximal run;
`tsNext_internal_skipWhite` below proves this performs exactly the
`tsSkipWhite_internal` copying. -/
def tsNext_internal (data : List Nat) (out : List (Option Nat)) :
    Bool × List Nat × List (Option Nat) :=
  match data with
  | [] => (false, [], out)
  | c :: rest0 =>
    if c = 0 then (false, c :: rest0, out)
    else if isspace_b c then tsNext_internal rest0 (out ++ [some c])
    else if isalnum_b c = false then tsNext_internal rest0 (out ++ [some c])
    else
      match matchSID [83, 73, 68, 40] (c :: rest0) with
      | .matched => (true, c :: rest0, out)
      | .hitEnd r => (false, r, out)
      | .nomatch =>
        tsNext_internal ((c :: rest0).dropWhile isalnum_b)
          (out ++ ((c :: rest0).takeWhile isalnum_b).map some)
termination_by data.length
decreasing_by
  · simp
  · simp
  · simp only [List.length_cons]
    have h1 : (c :: rest0).dropWhile isalnum_b = rest0.dropWhile isalnum_b := by
      have halnum' : isalnum_b c = true := by
        cases h : isalnum_b c
        · exact absurd h (by assumption)
        · rfl
      simp [List.dropWhile_cons, halnum']
    rw [h1]
    have := length_dropWhile_le' isalnum_b rest0
    omega

/-- The whitespace handling inside `tsNext_internal` is exactly a call to
`tsSkipWhite_internal` on the current cursors, as in the C source. -/
theorem tsNext_internal_skipWhite (data : List Nat) (out : List (Option Nat)) :
    tsNext_internal data out =
      tsNext_internal (tsSkipWhite_internal data out).1
        (tsSkipWhite_internal data out).2 := by
  induction data generalizing out with
  | nil => simp [tsSkipWhite_internal]
  | cons c rest ih =>
    by_cases hs : isspace_b c
    · have hc : ¬ c = 0 := by
        intro h
        rw [h] at hs
        simp [isspace_b] at hs
      rw [tsNext_internal]
      simp only [if_neg hc, if_pos hs]
      rw [ih, tsSkipWhite_internal, if_pos hs]
    · simp [tsSkipWhite_internal, hs]

theorem tsNext_data_length (data : List Nat) (out : List (Option Nat)) :
    (tsNext_internal data out).2.1.length ≤ data.length := by
  induction data, out using tsNext_internal.induct with
  | case1 out => simp [tsNext_internal]
  | case2 out rest0 => simp [tsNext_internal]
  | case3 out c rest0 hc hs ih =>
    rw [tsNext_internal]
    simp only [if_neg hc, if_pos hs]
    calc (tsNext_internal rest0 (out ++ [some c])).2.1.length
        ≤ rest0.length := ih
      _ ≤ (c :: rest0).length := by simp
  | case4 out c rest0 hc hs ha ih =>
    rw [tsNext_internal]
    simp only [if_neg hc, if_neg hs, if_pos ha]
    calc (tsNext_internal rest0 (out ++ [some c])).2.1.length
        ≤ rest0.length := ih
      _ ≤ (c :: rest0).length := by simp
  | case5 out c rest0 hc hs ha hm =>
    rw [tsNext_internal]
    simp only [if_neg hc, if_neg hs, if_neg ha, hm]
    exact le_rfl
  | case6 out c rest0 hc hs ha r hm =>
    rw [tsNext_internal]
    simp only [if_neg hc, if_neg hs, if_neg ha, hm]
    exact matchSID_hitEnd_length hm
  | case7 out c rest0 hc hs ha hm ih =>
    rw [tsNext_internal]
    simp only [if_neg hc, if_neg hs, if_neg ha, hm]
    calc (tsNext_internal ((c :: rest0).dropWhile isalnum_b) _).2.1.length
        ≤ ((c :: rest0).dropWhile isalnum_b).length := ih
      _ ≤ (c :: rest0).length := length_dropWhile_le' _ _

/-- The string-literal scanning loop of `tsPreprocess` (lines 187–199),
started just after the opening quote: a backslash consumes two bytes
(escape pair, kept verbatim in the span), a bare double quote ends the
span, any other byte (including an interior NUL) is consumed into the
span.  The loop never checks for the end of the buffer; `none` models the
undefined behaviour of the C loop running past the end of the allocation
(reading `*ptr` out of bounds) when no unescaped quote remains. -/
def scanLit : List Nat → Option (List Nat × List Nat)
  | [] => none
  | c :: rest =>
    if c = 92 then
      match rest with
      | [] => none
      | d :: rest2 =>
        match scanLit rest2 with
        | none => none
        | some (lit, rem) => some (c :: d :: lit, rem)
    else if c = 34 then some ([], rest)
    else
      match scanLit rest with
      | none => none
      | some (lit, rem) => some (c :: lit, rem)

theorem scanLit_rem_length {l lit rem : List Nat}
    (h : scanLit l = some (lit, rem)) : rem.length ≤ l.length := by
  induction l using scanLit.induct generalizing lit rem with
  | case1 => simp [scanLit] at h
  | case2 => simp [scanLit] at h
  | case3 d rest2 hs ih => simp [scanLit, hs] at h
  | case4 d rest2 lit' rem' hs ih =>
    simp only [scanLit, hs, Option.some.injEq, Prod.mk.injEq, if_pos] at h
    obtain ⟨h1, h2⟩ := h
    subst h2
    have := ih hs
    simp only [List.length_cons]
    omega
  | case5 rest2 hne =>
    rw [scanLit.eq_def] at h
    simp at h
    obtain ⟨h1, h2⟩ := h
    subst h2
    simp
  | case6 d rest2 h92 h34 hs ih =>
    rw [scanLit.eq_def] at h
    simp [h92, h34, hs] at h
  | case7 d rest2 h92 h34 lit' rem' hs ih =>
    rw [scanLit.eq_def] at h
    simp [h92, h34, hs] at h
    obtain ⟨h1, h2⟩ := h
    subst h2
    have := ih hs
    simp only [List.length_cons]
    omega

/-- One hexadecimal digit as printed by `%x`: `0`–`9` then lowercase
`a`–`f`. -/
def hexDigit (n : Nat) : Nat :=
  if n < 10 then 48 + n else 87 + n

/-- The eight digits printed by `sprintf` for `"%.8x"` applied to a value
below 2^32: most significant nibble first, zero padded to width 8. -/
def hex8 (h : Nat) : List Nat :=
  (List.range 8).map (fun i => hexDigit (h / 16 ^ (7 - i) % 16))

/-- The bytes written by line 203,
`sprintf( out, "0x%.8x /* \"%.*s\" */", h, bytes, data )`, for a literal
span `lit` (so `h = djb2 lit` and `bytes = lit.length`), excluding the
terminating NUL that `sprintf` appends: `0x`, eight hex digits, ` /* "`,
then `%.*s` — at most `bytes` bytes of the span, stopping early at a NUL
byte — then `" */`. -/
def sprintfBytes (lit : List Nat) : List Nat :=
  [48, 120] ++ hex8 (djb2 lit) ++ [32, 47, 42, 32, 34] ++
    lit.takeWhile (fun c => c != 0) ++ [34, 32, 42, 47]

/-- The contents of the output-buffer region claimed by one replacement
(lines 203–204): `sprintf` writes `sprintfBytes lit` followed by a NUL,
while the write cursor advances by exactly `19 + lit.length` bytes
(`out += 19 + bytes`).  When the span contains no NUL these coincide; when
it does, the positions between the `sprintf` NUL and the cursor are never
written (`none`: they keep whatever `malloc` returned). -/
def emitReplacement (lit : List Nat) : List (Option Nat) :=
  (((sprintfBytes lit).map some ++ [some 0] ++
      List.replicate (19 + lit.length) none).take (19 + lit.length))

/-- The spec's wording of the replacement text (§4.5, §6): `0x`, exactly
eight lowercase hex digits of the hash, then ` /* "`, the literal bytes
verbatim, and `" */` — `19 + lit.length` bytes in total. -/
def specReplacement (h : Nat) (lit : List Nat) : List Nat :=
  [48, 120] ++ hex8 h ++ [32, 47, 42, 32, 34] ++ lit ++ [34, 32, 42, 47]

/-- Outcome of one run of `tsPreprocess` over a whole buffer.
`ok modified out` is normal termination (return value `modified`; the
accumulated output buffer is written to `out_path` only when
`modified = true`).  `errNoString` is the abort at lines 178–182
(`SID WARN … Only strings can be placed inside of the SID macro`,
return 0, nothing written); `errNoParen` is the abort at lines 209–213
(`SID ERROR … Must have ) immediately after the SID macro`, return 0,
nothing written).  `oobRead` marks the undefined behaviour of the literal
scan (or an intra-invocation cursor step) reading past the end of the
allocated buffer — the C program has no defined result there. -/
inductive PreprocessResult where
  | ok : Bool → List (Option Nat) → PreprocessResult
  | errNoString : PreprocessResult
  | errNoParen : PreprocessResult
  | oobRead : PreprocessResult
deriving DecidableEq

/-- The body of the rewrite loop of `tsPreprocess` (lines 172–214), entered
with the read cursor at the `S` of a matched `SID(` and the write cursor
after the bytes copied so far: skip the four trigger bytes (`data += 4`),
consume whitespace without copying, require `"`, scan the literal with
`scanLit`, append the replacement to the output, advance past the closing
quote, consume whitespace, require `)`.  `inl` aborts the file,
`inr (data, out)` is the state for the next `tsNext_internal` round. -/
def tsStep (data1 : List Nat) (out1 : List (Option Nat)) :
    PreprocessResult ⊕ (List Nat × List (Option Nat)) :=
  match (data1.drop 4).dropWhile isspace_b with
  | [] => .inl .oobRead
  | c :: rest =>
    if c = 34 then
      match scanLit rest with
      | none => .inl .oobRead
      | some (lit, rem) =>
        match rem.dropWhile isspace_b with
        | [] => .inl .oobRead
        | d :: rest2 =>
          if d = 41 then .inr (rest2, out1 ++ emitReplacement lit)
          else .inl .errNoParen
    else .inl .errNoString

theorem tsStep_length {data1 : List Nat} {out1 : List (Option Nat)}
    {data' : List Nat} {out' : List (Option Nat)}
    (h : tsStep data1 out1 = .inr (data', out')) :
    data'.length + 5 ≤ data1.length := by
  unfold tsStep at h
  split at h
  · simp at h
  next c rest heq1 =>
    split at h
    · split at h
      · simp at h
      next lit rem heq2 =>
        split at h
        · simp at h
        next d rest2 heq3 =>
          split at h
          · simp only [Sum.inr.injEq, Prod.mk.injEq] at h
            obtain ⟨h1, h2⟩ := h
            subst h1
            have e1 : (c :: rest).length ≤ ((data1.drop 4).length) := by
              rw [← heq1]
              exact length_dropWhile_le' _ _
            have e2 : (data1.drop 4).length = data1.length - 4 := by
              simp
            have e3 : rem.length ≤ rest.length := scanLit_rem_length heq2
            have e4 : (d :: rest2).length ≤ rem.length := by
              rw [← heq3]
              exact length_dropWhile_le' _ _
            simp only [List.length_cons] at e1 e4
            omega
          · simp at h
    · simp at h

/-- The `while ( tsNext_internal( &data, &out ) )` loop of `tsPreprocess`
(lines 170–215) together with the post-loop write decision: `ok` carries
the final `fileWasModified` flag and output buffer. -/
def tsPreprocessLoop (data : List Nat) (out : List (Option Nat))
    (modified : Bool) : PreprocessResult :=
  if (tsNext_internal data out).1 = false then
    .ok modified (tsNext_internal data out).2.2
  else
    match hs : tsStep (tsNext_internal data out).2.1 (tsNext_internal data out).2.2 with
    | .inl e => e
    | .inr (data', out') => tsPreprocessLoop data' out' true
termination_by data.length
decreasing_by
  have h1 := tsNext_data_length data out
  have h2 := tsStep_length hs
  omega

/-- `tsPreprocess` (lines 142–225) on the contents of the input file: the
buffer is the file's bytes with a NUL appended (`data[ size ] = 0`,
line 156), the output buffer starts empty and `fileWasModified` starts 0. -/
def tsPreprocess (file : List Nat) : PreprocessResult :=
  tsPreprocessLoop (file ++ [0]) [] false

/-- The `int` returned by `tsPreprocess`: the final `fileWasModified` on
normal termination, 0 on either diagnostic abort (lines 181, 212), and
undefined (`none`) if the scan ran out of bounds. -/
def returnValue : PreprocessResult → Option Nat
  | .ok m _ => some (if m then 1 else 0)
  | .errNoString => some 0
  | .errNoParen => some 0
  | .oobRead => none

/-- The bytes written to `out_path` (lines 217–222): the accumulated output
buffer if `fileWasModified`, and no write at all otherwise (`none`). -/
def fileWritten : PreprocessResult → Option (List (Option Nat))
  | .ok true out => some out
  | _ => none

/-- Whether the byte list contains the trigger `S`,`I`,`D`,`(` as a
contiguous subsequence. -/
def containsSID : List Nat → Bool
  | [] => false
  | c :: rest => ((c :: rest).take 4 == [83, 73, 68, 40]) || containsSID rest

theorem tsPreprocessLoop_exit {data : List Nat} {out : List (Option Nat)} {modified : Bool}
    (hn : (tsNext_internal data out).1 = false) :
    tsPreprocessLoop data out modified = .ok modified (tsNext_internal data out).2.2 := by
  rw [tsPreprocessLoop.eq_def]
  simp [hn]

theorem tsPreprocessLoop_abort {data : List Nat} {out : List (Option Nat)} {modified : Bool}
    {e : PreprocessResult}
    (hn : (tsNext_internal data out).1 = true)
    (hs : tsStep (tsNext_internal data out).2.1 (tsNext_internal data out).2.2 = .inl e) :
    tsPreprocessLoop data out modified = e := by
  rw [tsPreprocessLoop.eq_def]
  rw [if_neg (by simp [hn])]
  split
  next e' heq =>
    rw [hs] at heq
    exact (Sum.inl.injEq .. ▸ heq) ▸ rfl
  next d' o' heq =>
    rw [hs] at heq
    simp at heq

theorem tsPreprocessLoop_iterate {data : List Nat} {out : List (Option Nat)} {modified : Bool}
    {data' : List Nat} {out' : List (Option Nat)}
    (hn : (tsNext_internal data out).1 = true)
    (hs : tsStep (tsNext_internal data out).2.1 (tsNext_internal data out).2.2 =
      .inr (data', out')) :
    tsPreprocessLoop data out modified = tsPreprocessLoop data' out' true := by
  rw [tsPreprocessLoop.eq_def]
  rw [if_neg (by simp [hn])]
  split
  next e' heq =>
    rw [hs] at heq
    simp at heq
  next d' o' heq =>
    rw [hs] at heq
    obtain ⟨h1, h2⟩ := Prod.mk.injEq .. ▸ (Sum.inr.injEq .. ▸ heq)
    rw [h1, h2]

theorem hex8_length (h : Nat) : (hex8 h).length = 8 := by
  simp [hex8]

theorem sprintfBytes_clean {lit : List Nat} (h : 0 ∉ lit) :
    sprintfBytes lit = specReplacement (djb2 lit) lit := by
  have ht : lit.takeWhile (fun c => c != 0) = lit := by
    rw [List.takeWhile_eq_self_iff]
    intro x hx
    simp
    intro hx0
    exact h (hx0 ▸ hx)
  rw [sprintfBytes, specReplacement, ht]

theorem specReplacement_length (hh : Nat) (lit : List Nat) :
    (specReplacement hh lit).length = 19 + lit.length := by
  simp [specReplacement, hex8_length]
  omega

theorem emitReplacement_clean {lit : List Nat} (h : 0 ∉ lit) :
    emitReplacement lit = (specReplacement (djb2 lit) lit).map some := by
  rw [emitReplacement, sprintfBytes_clean h]
  have hlen : ((specReplacement (djb2 lit) lit).map some).length = 19 + lit.length := by
    simp [specReplacement_length]
  calc (((specReplacement (djb2 lit) lit).map some ++ [some 0] ++
        List.replicate (19 + lit.length) none).take (19 + lit.length))
      = (((specReplacement (djb2 lit) lit).map some ++
          ([some 0] ++ List.replicate (19 + lit.length) none)).take
            (((specReplacement (djb2 lit) lit).map some).length)) := by
        rw [hlen, List.append_assoc]
    _ = (specReplacement (djb2 lit) lit).map some := List.take_left _ _

theorem emitReplacement_length (lit : List Nat) :
    (emitReplacement lit).length = 19 + lit.length := by
  rw [emitReplacement]
  simp [List.length_take]
  omega

theorem scanLit_clean {S : List Nat} (h34 : 34 ∉ S) (h92 : 92 ∉ S) (rest : List Nat) :
    scanLit (S ++ 34 :: rest) = some (S, rest) := by
  induction S with
  | nil =>
    rw [scanLit.eq_def]
    simp
  | cons c S' ih =>
    have hc34 : ¬ c = 34 := by
      intro h
      exact h34 (h ▸ List.mem_cons_self c S')
    have hc92 : ¬ c = 92 := by
      intro h
      exact h92 (h ▸ List.mem_cons_self c S')
    have ih' := ih (fun h => h34 (List.mem_cons_of_mem c h))
      (fun h => h92 (List.mem_cons_of_mem c h))
    rw [List.cons_append, scanLit.eq_def]
    simp only [if_neg hc92, if_neg hc34, ih']

theorem tsNext_SID_start (rest : List Nat) (out : List (Option Nat)) :
    tsNext_internal (83 :: 73 :: 68 :: 40 :: rest) out =
      (true, 83 :: 73 :: 68 :: 40 :: rest, out) := by
  rw [tsNext_internal]
  simp [isspace_b, isalnum_b, matchSID]

theorem containsSID_tail {c : Nat} {rest : List Nat}
    (h : containsSID (c :: rest) = false) : containsSID rest = false := by
  rw [containsSID] at h
  exact (Bool.or_eq_false_iff.mp h).2

theorem containsSID_head {c : Nat} {rest : List Nat}
    (h : containsSID (c :: rest) = false) : (c :: rest).take 4 ≠ [83, 73, 68, 40] := by
  rw [containsSID] at h
  have := (Bool.or_eq_false_iff.mp h).1
  intro heq
  rw [heq] at this
  simp at this

theorem containsSID_dropWhile (p : Nat → Bool) {l : List Nat}
    (h : containsSID l = false) : containsSID (l.dropWhile p) = false := by
  induction l with
  | nil => simpa using h
  | cons c rest ih =>
    rw [List.dropWhile_cons]
    by_cases hp : p c
    · simp only [hp, if_true]
      exact ih (containsSID_tail h)
    · simp only [hp, if_false]
      exact h

theorem containsSID_append_zero {l : List Nat}
    (h : containsSID l = false) : containsSID (l ++ [0]) = false := by
  induction l with
  | nil => simp [containsSID]
  | cons c rest ih =>
    have h2 := ih (containsSID_tail h)
    have h1 := containsSID_head h
    rw [List.cons_append, containsSID]
    rw [Bool.or_eq_false_iff]
    refine ⟨?_, h2⟩
    rw [beq_eq_false_iff_ne]
    intro heq
    apply h1
    match rest with
    | [] => simp at heq
    | [c2] => simp at heq
    | [c2, c3] =>
      simp at heq
    | c2 :: c3 :: c4 :: rest4 =>
      simpa using heq

theorem tsNext_noSID (data : List Nat) (out : List (Option Nat)) :
    containsSID data = false → (tsNext_internal data out).1 = false := by
  induction data, out using tsNext_internal.induct with
  | case1 out => intro h; simp [tsNext_internal]
  | case2 out rest0 => intro h; simp [tsNext_internal]
  | case3 out c rest0 hc hs ih =>
    intro h
    rw [tsNext_internal]
    simp only [if_neg hc, if_pos hs]
    exact ih (containsSID_tail h)
  | case4 out c rest0 hc hs ha ih =>
    intro h
    rw [tsNext_internal]
    simp only [if_neg hc, if_neg hs, if_pos ha]
    exact ih (containsSID_tail h)
  | case5 out c rest0 hc hs ha hm =>
    intro h
    exfalso
    exact containsSID_head h (matchSID_matched_take hm)
  | case6 out c rest0 hc hs ha r hm =>
    intro h
    rw [tsNext_internal]
    simp only [if_neg hc, if_neg hs, if_neg ha, hm]
  | case7 out c rest0 hc hs ha hm ih =>
    intro h
    rw [tsNext_internal]
    simp only [if_neg hc, if_neg hs, if_neg ha, hm]
    exact ih (containsSID_dropWhile _ h)

theorem scanLit_escape {u v : List Nat} (hu34 : 34 ∉ u) (hu92 : 92 ∉ u)
    (hv34 : 34 ∉ v) (hv92 : 92 ∉ v) (rest : List Nat) :
    scanLit (u ++ 92 :: 34 :: (v ++ 34 :: rest)) = some (u ++ 92 :: 34 :: v, rest) := by
  induction u with
  | nil =>
    simp only [List.nil_append]
    rw [scanLit.eq_def]
    simp only [if_pos rfl]
    rw [scanLit_clean hv34 hv92 rest]
    simp
  | cons c u' ih =>
    have hc34 : ¬ c = 34 := fun h => hu34 (h ▸ List.mem_cons_self c u')
    have hc92 : ¬ c = 92 := fun h => hu92 (h ▸ List.mem_cons_self c u')
    have ih' := ih (fun h => hu34 (List.mem_cons_of_mem c h))
      (fun h => hu92 (List.mem_cons_of_mem c h))
    rw [List.cons_append, scanLit.eq_def]
    simp only [if_neg hc92, if_neg hc34, ih']
    simp

/-- Claim C1: for every byte sequence `S` containing no characters requiring
escaping (no double quote, no backslash, and no NUL byte, so that `S` is a
complete C string), the run-time hash primitive — the `SID` macro, djb2 over
the bytes of `S` — returns the same 32-bit value as the hash `tsPreprocess`
embeds in its output for an input containing `SID("S")`: processing that
input succeeds and emits exactly the replacement whose eight hex digits
spell `SID S`. -/
theorem C1_runtime_hash_matches_embedded (S : List Nat)
    (h34 : 34 ∉ S) (h92 : 92 ∉ S) (h0 : 0 ∉ S) :
    tsPreprocess ([83, 73, 68, 40, 34] ++ S ++ [34, 41]) =
      .ok true ((specReplacement (SID S) S).map some) := by
  have hSID : SID S = djb2 S := by
    rw [SID]
    congr 1
    rw [List.takeWhile_eq_self_iff]
    intro x hx
    simp
    intro h
    exact h0 (h ▸ hx)
  have h1 := tsNext_SID_start (34 :: (S ++ [34, 41, 0])) []
  have h2 : tsStep (83 :: 73 :: 68 :: 40 :: 34 :: (S ++ [34, 41, 0])) [] =
      .inr ([0], [] ++ emitReplacement S) := by
    unfold tsStep
    have hscan : scanLit (S ++ [34, 41, 0]) = some (S, [41, 0]) :=
      scanLit_clean h34 h92 [41, 0]
    simp [isspace_b, hscan]
  have h3 : tsNext_internal [0] ([] ++ emitReplacement S) =
      (false, [0], [] ++ emitReplacement S) := by
    rw [tsNext_internal]
    simp
  rw [tsPreprocess]
  have hbuf : ([83, 73, 68, 40, 34] ++ S ++ [34, 41]) ++ [0] =
      83 :: 73 :: 68 :: 40 :: 34 :: (S ++ [34, 41, 0]) := by
    simp
  rw [hbuf]
  rw [tsPreprocessLoop_iterate (by rw [h1]) (by rw [h1]; exact h2)]
  rw [tsPreprocessLoop_exit (by rw [h3])]
  rw [h3]
  simp only [List.nil_append]
  rw [emitReplacement_clean h0, hSID]

theorem C1_runtime_hash_matches_embedded_witness :
    tsPreprocess ([83, 73, 68, 40, 34] ++ [104, 105] ++ [34, 41]) =
      .ok true ((specReplacement (SID [104, 105]) [104, 105]).map some) :=
  C1_runtime_hash_matches_embedded [104, 105] (by decide) (by decide) (by decide)

/-- Claim C2: for every byte range, `djb2` returns the left fold starting
from accumulator 5381 of `acc = acc * 33 + c` over each byte `c` in order
with 32-bit unsigned wraparound; the empty range hashes to 5381 and the
one-byte range `"a"` hashes to `5381 * 33 + 97` mod 2^32. -/
theorem C2_djb2_fold :
    (∀ l : List Nat, djb2 l = djb2Spec l) ∧
    djb2 [] = 5381 ∧ djb2 [97] = (5381 * 33 + 97) % 2 ^ 32 := by
  have hfg : (fun (h c : Nat) => ((h <<< 5) + h + c) % 4294967296) =
      (fun (h c : Nat) => (h * 33 + c) % 4294967296) := by
    funext h c
    rw [Nat.shiftLeft_eq]
    norm_num
    ring_nf
  refine ⟨?_, by rfl, by norm_num [djb2, Nat.shiftLeft_eq]⟩
  intro l
  rw [djb2, djb2Spec, hfg]

/-- Claim C3 is refuted by the code: on the input `SID("a") SI` — a
successful replacement followed by a buffer ending in the partial trigger
`SI` — `tsPreprocess` writes an output file consisting of the 20-byte
replacement and the copied space only (21 bytes), silently dropping the
final input bytes `S`, `I` (83, 73), which the partial pattern match
consumed without copying before hitting the NUL terminator. -/
theorem C3_partial_trigger_dropped :
    tsPreprocess [83, 73, 68, 40, 34, 97, 34, 41, 32, 83, 73] =
      .ok true (emitReplacement [97] ++ [some 32]) ∧
    (emitReplacement [97] ++ [some 32]).length = 21 := by
  constructor
  · have h1 := tsNext_SID_start [34, 97, 34, 41, 32, 83, 73, 0] []
    have h2 : tsStep [83, 73, 68, 40, 34, 97, 34, 41, 32, 83, 73, 0] [] =
        .inr ([32, 83, 73, 0], [] ++ emitReplacement [97]) := by
      unfold tsStep
      simp [scanLit, isspace_b]
    have h3 : tsNext_internal [32, 83, 73, 0] ([] ++ emitReplacement [97]) =
        (false, [0], [] ++ emitReplacement [97] ++ [some 32]) := by
      rw [tsNext_internal]
      simp [tsNext_internal, isspace_b, isalnum_b, matchSID]
    rw [tsPreprocess]
    simp only [List.cons_append, List.nil_append]
    rw [tsPreprocessLoop_iterate (by rw [h1]) (by rw [h1]; exact h2)]
    rw [tsPreprocessLoop_exit (by rw [h3])]
    rw [h3]
    simp
  · simp [emitReplacement_length]

/-- Claim C4 is refuted by the code: on the 7-byte input `SID("")` the
replacement written into the output buffer is 19 bytes long, exceeding the
pre-allocated capacity of `2 * 7 = 14` bytes (`malloc( size * 2 )`), so the
write cursor passes the end of the allocation. -/
theorem C4_output_exceeds_capacity :
    tsPreprocess [83, 73, 68, 40, 34, 34, 41] = .ok true (emitReplacement []) ∧
    (emitReplacement []).length = 19 ∧
    2 * [83, 73, 68, 40, 34, 34, 41].length < (emitReplacement []).length := by
  refine ⟨?_, by simp [emitReplacement_length], by simp [emitReplacement_length]⟩
  have h1 := tsNext_SID_start [34, 34, 41, 0] []
  have h2 : tsStep [83, 73, 68, 40, 34, 34, 41, 0] [] =
      .inr ([0], [] ++ emitReplacement []) := by
    unfold tsStep
    simp [scanLit, isspace_b]
  have h3 : tsNext_internal [0] ([] ++ emitReplacement []) =
      (false, [0], [] ++ emitReplacement []) := by
    rw [tsNext_internal]
    simp
  rw [tsPreprocess]
  simp only [List.cons_append, List.nil_append]
  rw [tsPreprocessLoop_iterate (by rw [h1]) (by rw [h1]; exact h2)]
  rw [tsPreprocessLoop_exit (by rw [h3])]
  rw [h3]
  simp

/-- Claim C5 as stated fails on the code: for the fully validated invocation
`SID("a\<NUL>b")` (literal span `97, 92, 0, 98`, four bytes), the emitted
region is not the claimed verbatim text — `sprintf`'s `%.*s` stops at the
NUL byte, so the bytes written differ from `0x`, hash, ` /* "`, span,
`" */` even on the determinately written prefix. -/
theorem C5_nul_literal_not_verbatim :
    tsPreprocess [83, 73, 68, 40, 34, 97, 92, 0, 98, 34, 41] ≠
      .ok true ((specReplacement (djb2 [97, 92, 0, 98]) [97, 92, 0, 98]).map some) := by
  have h1 := tsNext_SID_start [34, 97, 92, 0, 98, 34, 41, 0] []
  have h2 : tsStep [83, 73, 68, 40, 34, 97, 92, 0, 98, 34, 41, 0] [] =
      .inr ([0], [] ++ emitReplacement [97, 92, 0, 98]) := by
    unfold tsStep
    simp [scanLit, isspace_b]
  have h3 : tsNext_internal [0] ([] ++ emitReplacement [97, 92, 0, 98]) =
      (false, [0], [] ++ emitReplacement [97, 92, 0, 98]) := by
    rw [tsNext_internal]
    simp
  have hL : tsPreprocess [83, 73, 68, 40, 34, 97, 92, 0, 98, 34, 41] =
      .ok true (emitReplacement [97, 92, 0, 98]) := by
    rw [tsPreprocess]
    simp only [List.cons_append, List.nil_append]
    rw [tsPreprocessLoop_iterate (by rw [h1]) (by rw [h1]; exact h2)]
    rw [tsPreprocessLoop_exit (by rw [h3])]
    rw [h3]
    simp
  rw [hL]
  decide

/-- Claim C5, amended: for every fully validated invocation whose literal
span contains no NUL byte, the replacement emitted is exactly `0x`, eight
lowercase hex digits of the 32-bit hash, ` /* "`, the span bytes verbatim,
`" */` — `19 + b` bytes; and the write cursor always advances by exactly
`19 + b` whether or not the span contains a NUL. -/
theorem C5_replacement_format (lit : List Nat) (h : 0 ∉ lit) :
    emitReplacement lit = (specReplacement (djb2 lit) lit).map some ∧
    (emitReplacement lit).length = 19 + lit.length ∧
    (specReplacement (djb2 lit) lit).length = 19 + lit.length :=
  ⟨emitReplacement_clean h, emitReplacement_length lit, specReplacement_length _ _⟩

theorem C5_replacement_format_witness :
    (0 : Nat) ∉ [97] ∧
    emitReplacement [97] = (specReplacement (djb2 [97]) [97]).map some ∧
    (emitReplacement [97]).length = 19 + 1 :=
  ⟨by decide, (C5_replacement_format [97] (by decide)).1,
    (C5_replacement_format [97] (by decide)).2.1⟩

/-- Claim C6: for every input containing no `SID(` trigger (in particular
the output of a previous run, which contains only `0xHHHHHHHH /* "..." */`
forms), `tsPreprocess` returns 0 ("not modified") and writes no output
file, leaving any existing file at `out_path` untouched — hence running it
twice equals running it once. -/
theorem C6_no_trigger_not_modified (input : List Nat)
    (h : containsSID input = false) :
    returnValue (tsPreprocess input) = some 0 ∧
    fileWritten (tsPreprocess input) = none := by
  have hz := containsSID_append_zero h
  have h1 := tsNext_noSID (input ++ [0]) [] hz
  rw [tsPreprocess, tsPreprocessLoop_exit h1]
  exact ⟨rfl, rfl⟩

theorem C6_no_trigger_not_modified_witness :
    containsSID [48, 120, 48, 49, 48, 50, 48, 51, 48, 52, 32, 47, 42, 32, 34,
      120, 34, 32, 42, 47] = false ∧
    returnValue (tsPreprocess [48, 120, 48, 49, 48, 50, 48, 51, 48, 52, 32, 47,
      42, 32, 34, 120, 34, 32, 42, 47]) = some 0 ∧
    fileWritten (tsPreprocess [48, 120, 48, 49, 48, 50, 48, 51, 48, 52, 32, 47,
      42, 32, 34, 120, 34, 32, 42, 47]) = none :=
  ⟨by decide, (C6_no_trigger_not_modified _ (by decide)).1,
    (C6_no_trigger_not_modified _ (by decide)).2⟩

/-- Claim C7: a malformed invocation — a `SID(` trigger not followed (after
optional whitespace) by a double quote, as in `SID(nope)`, or a validated
literal not followed (after optional whitespace) by a closing parenthesis,
as in `SID("ok"` — makes `tsPreprocess` print a diagnostic, return 0, and
write no output file, even when a replacement had already been performed in
the output buffer (the fourth conjunct: `SID("a") SID(n…`). -/
theorem C7_malformed_abort_no_write :
    (∀ tail : List Nat,
      tsPreprocess ([83, 73, 68, 40, 110] ++ tail) = .errNoString) ∧
    tsPreprocess [83, 73, 68, 40, 34, 111, 107, 34] = .errNoParen ∧
    (∀ tail : List Nat,
      tsPreprocess ([83, 73, 68, 40, 34, 111, 107, 34, 59] ++ tail) = .errNoParen) ∧
    (∀ tail : List Nat,
      tsPreprocess ([83, 73, 68, 40, 34, 97, 34, 41, 32, 83, 73, 68, 40, 110] ++ tail) =
        .errNoString) ∧
    returnValue .errNoString = some 0 ∧ fileWritten .errNoString = none ∧
    returnValue .errNoParen = some 0 ∧ fileWritten .errNoParen = none := by
  refine ⟨?_, ?_, ?_, ?_, rfl, rfl, rfl, rfl⟩
  · intro tail
    have h1 := tsNext_SID_start (110 :: (tail ++ [0])) []
    have h2 : tsStep (83 :: 73 :: 68 :: 40 :: 110 :: (tail ++ [0])) [] =
        .inl .errNoString := by
      unfold tsStep
      simp [isspace_b]
    rw [tsPreprocess]
    simp only [List.cons_append, List.nil_append]
    exact tsPreprocessLoop_abort (by rw [h1]) (by rw [h1]; exact h2)
  · have h1 := tsNext_SID_start [34, 111, 107, 34, 0] []
    have h2 : tsStep [83, 73, 68, 40, 34, 111, 107, 34, 0] [] = .inl .errNoParen := by
      unfold tsStep
      simp [scanLit, isspace_b]
    rw [tsPreprocess]
    simp only [List.cons_append, List.nil_append]
    exact tsPreprocessLoop_abort (by rw [h1]) (by rw [h1]; exact h2)
  · intro tail
    have h1 := tsNext_SID_start (34 :: 111 :: 107 :: 34 :: 59 :: (tail ++ [0])) []
    have hscan : scanLit (111 :: 107 :: 34 :: 59 :: (tail ++ [0])) =
        some ([111, 107], 59 :: (tail ++ [0])) := by
      have := scanLit_clean (S := [111, 107]) (by decide) (by decide) (59 :: (tail ++ [0]))
      simpa using this
    have h2 : tsStep (83 :: 73 :: 68 :: 40 :: 34 :: 111 :: 107 :: 34 :: 59 :: (tail ++ [0]))
        [] = .inl .errNoParen := by
      unfold tsStep
      simp [isspace_b, hscan]
    rw [tsPreprocess]
    simp only [List.cons_append, List.nil_append]
    exact tsPreprocessLoop_abort (by rw [h1]) (by rw [h1]; exact h2)
  · intro tail
    have h1 := tsNext_SID_start
      (34 :: 97 :: 34 :: 41 :: 32 :: 83 :: 73 :: 68 :: 40 :: 110 :: (tail ++ [0])) []
    have hscan : scanLit (97 :: 34 :: 41 :: 32 :: 83 :: 73 :: 68 :: 40 :: 110 :: (tail ++ [0])) =
        some ([97], 41 :: 32 :: 83 :: 73 :: 68 :: 40 :: 110 :: (tail ++ [0])) := by
      have := scanLit_clean (S := [97]) (by decide) (by decide)
        (41 :: 32 :: 83 :: 73 :: 68 :: 40 :: 110 :: (tail ++ [0]))
      simpa using this
    have h2 : tsStep
        (83 :: 73 :: 68 :: 40 :: 34 :: 97 :: 34 :: 41 :: 32 :: 83 :: 73 :: 68 :: 40 :: 110 ::
          (tail ++ [0])) [] =
        .inr (32 :: 83 :: 73 :: 68 :: 40 :: 110 :: (tail ++ [0]), [] ++ emitReplacement [97]) := by
      unfold tsStep
      simp [isspace_b, hscan]
    have h3 : tsNext_internal (32 :: 83 :: 73 :: 68 :: 40 :: 110 :: (tail ++ [0]))
        ([] ++ emitReplacement [97]) =
        (true, 83 :: 73 :: 68 :: 40 :: 110 :: (tail ++ [0]),
          [] ++ emitReplacement [97] ++ [some 32]) := by
      rw [tsNext_internal]
      simp only [if_neg (by decide : ¬ (32 : Nat) = 0), if_pos (by decide : isspace_b 32 = true)]
      rw [tsNext_SID_start]
    have h4 : tsStep (83 :: 73 :: 68 :: 40 :: 110 :: (tail ++ [0]))
        ([] ++ emitReplacement [97] ++ [some 32]) = .inl .errNoString := by
      unfold tsStep
      simp [isspace_b]
    rw [tsPreprocess]
    simp only [List.cons_append, List.nil_append]
    rw [tsPreprocessLoop_iterate (by rw [h1]) (by rw [h1]; exact h2)]
    exact tsPreprocessLoop_abort (by rw [h3]) (by rw [h3]; exact h4)

/-- Claim C8 is refuted by the code: on an input whose string literal is
unterminated at end of input — `SID("abc`, and also `SID("a\` where the
backslash is the last byte — the literal-scanning loop does not stop at the
NUL terminator: it walks past the end of the allocated buffer (undefined
behaviour, modelled as `oobRead`), and the file's processing neither
terminates within the buffer nor aborts with a diagnostic. -/
theorem C8_unterminated_literal_oob :
    tsPreprocess [83, 73, 68, 40, 34, 97, 98, 99] = .oobRead ∧
    tsPreprocess [83, 73, 68, 40, 34, 97, 92] = .oobRead := by
  constructor
  · have h1 := tsNext_SID_start [34, 97, 98, 99, 0] []
    have h2 : tsStep [83, 73, 68, 40, 34, 97, 98, 99, 0] [] = .inl .oobRead := by
      unfold tsStep
      simp [scanLit, isspace_b]
    rw [tsPreprocess]
    simp only [List.cons_append, List.nil_append]
    exact tsPreprocessLoop_abort (by rw [h1]) (by rw [h1]; exact h2)
  · have h1 := tsNext_SID_start [34, 97, 92, 0] []
    have h2 : tsStep [83, 73, 68, 40, 34, 97, 92, 0] [] = .inl .oobRead := by
      unfold tsStep
      simp [scanLit, isspace_b]
    rw [tsPreprocess]
    simp only [List.cons_append, List.nil_append]
    exact tsPreprocessLoop_abort (by rw [h1]) (by rw [h1]; exact h2)

/-- Claim C9: for every invocation whose literal contains a backslash-escape
pair, the literal span is the raw bytes between the outer quotes with the
escape pair included verbatim (first conjunct, for any such literal), and —
for the spec's example `SID("a\"b")` — the hash is computed over exactly
the raw 4-byte span `a`, `\`, `"`, `b` without unescaping and the emitted
comment reproduces those bytes verbatim (second conjunct). -/
theorem C9_escape_pairs_verbatim :
    (∀ u v rest : List Nat, 34 ∉ u → 92 ∉ u → 34 ∉ v → 92 ∉ v →
      scanLit (u ++ 92 :: 34 :: (v ++ 34 :: rest)) = some (u ++ 92 :: 34 :: v, rest)) ∧
    tsPreprocess [83, 73, 68, 40, 34, 97, 92, 34, 98, 34, 41] =
      .ok true ((specReplacement (djb2 [97, 92, 34, 98]) [97, 92, 34, 98]).map some) := by
  constructor
  · intro u v rest hu34 hu92 hv34 hv92
    exact scanLit_escape hu34 hu92 hv34 hv92 rest
  · have h1 := tsNext_SID_start [34, 97, 92, 34, 98, 34, 41, 0] []
    have h2 : tsStep [83, 73, 68, 40, 34, 97, 92, 34, 98, 34, 41, 0] [] =
        .inr ([0], [] ++ emitReplacement [97, 92, 34, 98]) := by
      unfold tsStep
      simp [scanLit, isspace_b]
    have h3 : tsNext_internal [0] ([] ++ emitReplacement [97, 92, 34, 98]) =
        (false, [0], [] ++ emitReplacement [97, 92, 34, 98]) := by
      rw [tsNext_internal]
      simp
    rw [tsPreprocess]
    simp only [List.cons_append, List.nil_append]
    rw [tsPreprocessLoop_iterate (by rw [h1]) (by rw [h1]; exact h2)]
    rw [tsPreprocessLoop_exit (by rw [h3])]
    rw [h3]
    simp only [List.nil_append]
    rw [emitReplacement_clean (by decide)]

theorem C9_escape_pairs_verbatim_witness :
    scanLit ([97] ++ 92 :: 34 :: ([98] ++ 34 :: [41, 0])) =
      some ([97] ++ 92 :: 34 :: [98], [41, 0]) :=
  C9_escape_pairs_verbatim.1 [97] [98] [41, 0] (by decide) (by decide) (by decide) (by decide)

/-- Claim C10: an occurrence of `SID(` immediately preceded by an
alphanumeric byte is not treated as a trigger — the whole alphanumeric run
including `S`, `I`, `D` is copied verbatim and the run is reported "not
modified" (first conjunct, for every alphanumeric preceding byte) — whereas
the same occurrence preceded by any non-alphanumeric byte such as an
underscore is rewritten (second conjunct). -/
theorem C10_trigger_boundary :
    (∀ c : Nat, isalnum_b c = true →
      tsPreprocess (c :: [83, 73, 68, 40, 34, 120, 34, 41]) =
        .ok false ((c :: [83, 73, 68, 40, 34, 120, 34, 41]).map some)) ∧
    (∀ c : Nat, isalnum_b c = false → c ≠ 0 →
      tsPreprocess (c :: [83, 73, 68, 40, 34, 120, 34, 41]) =
        .ok true (some c :: emitReplacement [120])) := by
  constructor
  · intro c hc
    have hc48 : 48 ≤ c := by
      simp only [isalnum_b, Bool.or_eq_true, Bool.and_eq_true, decide_eq_true_eq] at hc
      omega
    have hc0 : ¬ c = 0 := by omega
    have hcs : ¬ isspace_b c = true := by
      simp only [isspace_b, Bool.or_eq_true, beq_iff_eq]
      omega
    have hm : matchSID [83, 73, 68, 40] (c :: [83, 73, 68, 40, 34, 120, 34, 41, 0]) =
        .nomatch := by
      by_cases h83 : c = 83
      · subst h83
        simp [matchSID]
      · rw [matchSID]
        simp only [if_neg hc0, if_neg h83]
    have h1 : tsNext_internal (c :: [83, 73, 68, 40, 34, 120, 34, 41, 0]) [] =
        (false, [0], (c :: [83, 73, 68, 40, 34, 120, 34, 41]).map some) := by
      rw [tsNext_internal]
      simp only [if_neg hc0, hcs, if_false, hc, if_neg (by simp : ¬ (true = false)), hm]
      rw [List.takeWhile_cons_of_pos hc, List.dropWhile_cons_of_pos hc]
      norm_num
      simp [tsNext_internal, isspace_b, isalnum_b, matchSID]
    rw [tsPreprocess]
    simp only [List.cons_append, List.nil_append]
    rw [tsPreprocessLoop_exit (by rw [h1])]
    rw [h1]
  · intro c hc hc0
    have h1 : tsNext_internal (c :: [83, 73, 68, 40, 34, 120, 34, 41, 0]) [] =
        (true, [83, 73, 68, 40, 34, 120, 34, 41, 0], [some c]) := by
      rw [tsNext_internal]
      simp only [if_neg hc0]
      by_cases hs : isspace_b c
      · simp only [hs, if_true]
        have := tsNext_SID_start [34, 120, 34, 41, 0] [some c]
        simpa using this
      · simp only [hs, if_false, hc, eq_self_iff_true, if_true]
        have := tsNext_SID_start [34, 120, 34, 41, 0] [some c]
        simpa using this
    have h2 : tsStep [83, 73, 68, 40, 34, 120, 34, 41, 0] [some c] =
        .inr ([0], some c :: emitReplacement [120]) := by
      unfold tsStep
      simp [scanLit, isspace_b]
    have h3 : tsNext_internal [0] (some c :: emitReplacement [120]) =
        (false, [0], some c :: emitReplacement [120]) := by
      rw [tsNext_internal]
      simp
    rw [tsPreprocess]
    simp only [List.cons_append, List.nil_append]
    rw [tsPreprocessLoop_iterate (by rw [h1]) (by rw [h1]; exact h2)]
    rw [tsPreprocessLoop_exit (by rw [h3])]
    rw [h3]

theorem C10_trigger_boundary_witness :
    tsPreprocess (65 :: [83, 73, 68, 40, 34, 120, 34, 41]) =
      .ok false ((65 :: [83, 73, 68, 40, 34, 120, 34, 41]).map some) ∧
    tsPreprocess (95 :: [83, 73, 68, 40, 34, 120, 34, 41]) =
      .ok true (some 95 :: emitReplacement [120]) :=
  ⟨C10_trigger_boundary.1 65 (by decide), C10_trigger_boundary.2 95 (by decide) (by decide)⟩

end TinySid
